import Mathlib

/-!
Verification of the line-relay chat system (rust-chat-app).

The repository has two source files, `src/client.rs` and `src/server.rs`.
We shallowly embed the line-processing core of both programs:

* the client's stdin-reader task (read a line, drop it when it trims to
  empty, otherwise enqueue it to the bounded mpsc queue),
* the client's sender task (dequeue and write the bytes, then flush),
* the client's connection-reader loop (print each line verbatim; on a
  clean end-of-stream print a disconnect notice and return exit code 0),
* the server's `handle_client` inbound loop (read a line, publish it to
  the broadcast channel, propagating a send error),
* the server's `handle_client` outbound task
  (`while let Ok(msg) = rx.recv() ...`, writing without a flush),
* the tokio primitives the sources use: the bounded mpsc queue of
  capacity 10 and the broadcast (fan-out) channel, modelled by their
  documented semantics since the dependency sources are not part of the
  repository.

Streams of reads are modelled as lists of read results; concurrency is
modelled by explicit event traces.
-/

namespace Chat

/-- A message relayed by the system: one line of text (the trailing
newline is part of the string exactly when the producing `read_line`
call saw one). -/
abbrev Message := String

/-- Result of one `read_line` call on a buffered reader:
`ok line` for `Ok(n)` with `n > 0` and buffer contents `line`
(trailing newline included when present on the wire), `eof` for
`Ok(0)` (clean end-of-stream), `err` for an I/O error. -/
inductive ReadResult where
  | ok (line : String)
  | eof
  | err
deriving DecidableEq, Repr

/-! ## Client: stdin-reader task (`client.rs`, stdin task)

The task loops over `stdin.read_line`; on `Ok(0)` or an error it stops;
on a line it checks `input.trim().is_empty()` and `continue`s when the
check holds, otherwise it sends the line (unchanged) into the mpsc
channel. -/

/-- Rust's `input.trim().is_empty()` as evaluated by `client.rs`: true
exactly when every character of the line is whitespace (in particular
for the empty string and for a lone newline).  `Char.isWhitespace`
models Rust's `char::is_whitespace`; the two agree on ASCII
whitespace. -/
def trimIsEmpty (s : String) : Bool := s.data.all Char.isWhitespace

/-- The sequence of messages the stdin-reader task of `client.rs`
enqueues to the outbound mpsc queue, given the sequence of stdin read
results.  A line whose trimmed content is empty is skipped
(`continue`); EOF and errors end the task. -/
def clientStdinEnqueued : List ReadResult → List Message
  | [] => []
  | ReadResult.eof :: _ => []
  | ReadResult.err :: _ => []
  | ReadResult.ok input :: rest =>
      if trimIsEmpty input then clientStdinEnqueued rest
      else input :: clientStdinEnqueued rest

/-! ## Client: sender task and server: outbound write (`client.rs` sender
task, `server.rs` outbound task)

Each write is a sequence of primitive I/O actions on the write half.
The client sender does `writer.write_all(msg.as_bytes())` followed by
`writer.flush()`; the server outbound task does only
`writer.write_all(msg.as_bytes())` (no flush). Neither appends a
delimiter: the bytes written are exactly the message. -/

/-- A primitive action on a connection's write half. -/
inductive IOAction where
  | write (bytes : String)
  | flush
deriving DecidableEq, Repr

/-- The I/O actions one iteration of the client sender task performs for
a dequeued message (`client.rs`): `write_all` of the message bytes, then
`flush`. -/
def clientSenderActions (msg : Message) : List IOAction :=
  [IOAction.write msg, IOAction.flush]

/-- The I/O actions one iteration of the server outbound task performs
for a received broadcast message (`server.rs`): `write_all` of the
message bytes only; the task never calls `flush`. -/
def serverWriteActions (msg : Message) : List IOAction :=
  [IOAction.write msg]

/-- The bytes a sequence of write-half actions puts on the wire. -/
def emittedBytes : List IOAction → String
  | [] => ""
  | IOAction.write b :: rest => b ++ emittedBytes rest
  | IOAction.flush :: rest => emittedBytes rest

/-- Whether a sequence of write-half actions contains a `flush`. -/
def hasFlush : List IOAction → Bool
  | [] => false
  | IOAction.write _ :: rest => hasFlush rest
  | IOAction.flush :: _ => true

/-! ## Client: connection-reader loop (`client.rs`, main loop)

The main task loops over `reader.read_line`; on `Ok(0)` it prints
"Server closed the connection." and breaks, after which `main` returns
`Ok(())` (process exit code 0); on a line it prints the buffer verbatim
(`print!("{}", buffer)`); an I/O error is propagated by `?`, making
`main` return an error (nonzero exit code, modelled as 1). -/

/-- The notice `client.rs` prints when the server closes the
connection. -/
def disconnectNotice : String := "Server closed the connection."

/-- The client connection-reader loop: returns the strings printed to
stdout, in order, and `some code` when the loop has terminated with
process exit code `code` (`none` when the read stream is not yet
exhausted). -/
def clientReadLoop : List ReadResult → List String × Option Nat
  | [] => ([], none)
  | ReadResult.eof :: _ => ([disconnectNotice], some 0)
  | ReadResult.err :: _ => ([], some 1)
  | ReadResult.ok line :: rest =>
      let r := clientReadLoop rest
      (line :: r.1, r.2)

/-! ## Client: bounded outbound queue (`client.rs`,
`mpsc::channel::<String>(10)`)

Modelled from the spec: the tokio bounded mpsc channel implementation is
not part of this repository; per the spec (section 3, Client Outbound
Queue, and section 4.4) it is an ordered bounded FIFO queue whose
producer suspends when the queue is full, rather than dropping the
message.  The capacity 10 is taken from `client.rs`. -/

/-- Capacity of the client's outbound queue
(`mpsc::channel::<String>(10)` in `client.rs`). -/
def queueCapacity : Nat := 10

/-- An operation on the client's outbound queue: the stdin-reader
enqueues a message, or the sender dequeues one. -/
inductive QueueOp where
  | enqueue (m : Message)
  | dequeue
deriving DecidableEq, Repr

/-- Run a schedule of queue operations on the bounded outbound queue.
Returns `(final queue, messages dequeued in order, messages accepted
into the queue in order)`.  An `enqueue` on a full queue suspends the
producer — the trace stalls with the message still pending, not dropped
— and a `dequeue` on an empty queue suspends the consumer. -/
def runQueue : List QueueOp → List Message → List Message × List Message × List Message
  | [], q => (q, [], [])
  | QueueOp.enqueue m :: rest, q =>
      if q.length < queueCapacity then
        let r := runQueue rest (q ++ [m])
        (r.1, r.2.1, m :: r.2.2)
      else (q, [], [])
  | QueueOp.dequeue :: rest, q =>
      match q with
      | [] => ([], [], [])
      | m :: q' =>
          let r := runQueue rest q'
          (r.1, m :: r.2.1, r.2.2)

/-! ## Broadcast hub (`server.rs`, `broadcast::channel::<String>(10)`)

Modelled from the spec: the tokio broadcast channel implementation is
not part of this repository.  Per its documented semantics (matching the
spec's sections 4.2 and 5): the channel keeps the last `capacity`
published messages; a receiver holds a position into the global publish
sequence; `recv` yields the message at the receiver's position when it
is still buffered, yields a `Lagged(n)` error and jumps the receiver
forward to the oldest buffered message when `n` messages have been
overwritten, suspends when the receiver is caught up and the channel is
open, and yields `Closed` when it is caught up and all senders are
dropped.  `send` delivers to every current receiver and fails exactly
when there are zero receivers. -/

/-- Result of `broadcast::Receiver::recv` as seen by `server.rs`. -/
inductive BRecv where
  | msg (m : Message)
  | lagged (n : Nat)
  | closed
deriving DecidableEq, Repr

/-- `broadcast::Sender::send` as called by `server.rs`: with zero live
receivers it returns `Except.error` (tokio's `SendError`); otherwise it
appends the message to the global publish log and returns the new log. -/
def hubSend (receivers : Nat) (log : List Message) (m : Message) :
    Except Unit (List Message) :=
  if receivers = 0 then Except.error () else Except.ok (log ++ [m])

/-- An event in a broadcast-hub trace, as observed by one fixed
subscriber: either some connection publishes a message, or the observed
subscriber calls `recv`. -/
inductive HubEvent where
  | publish (m : Message)
  | recv
deriving DecidableEq, Repr

/-- The publish log after all events of a trace have happened. -/
def finalLog : List HubEvent → List Message → List Message
  | [], log => log
  | HubEvent.publish m :: rest, log => finalLog rest (log ++ [m])
  | HubEvent.recv :: rest, log => finalLog rest log

/-- The messages one subscriber receives along a hub trace, each paired
with its index in the global publish log.  `log` is the current publish
log and `pos` the subscriber's position (index of the next message it
has not yet consumed); a subscription created "now" starts at
`pos = log.length`.  A `recv` when more than `capacity` messages are
pending yields a `Lagged` error (no message) and jumps the position to
the oldest buffered message; a `recv` when caught up suspends (yields
nothing). -/
def subscriberView (capacity : Nat) :
    List HubEvent → List Message → Nat → List (Nat × Message)
  | [], _, _ => []
  | HubEvent.publish m :: rest, log, pos =>
      subscriberView capacity rest (log ++ [m]) pos
  | HubEvent.recv :: rest, log, pos =>
      if pos + capacity < log.length then
        subscriberView capacity rest log (log.length - capacity)
      else if h : pos < log.length then
        (pos, log[pos]) :: subscriberView capacity rest log (pos + 1)
      else
        subscriberView capacity rest log pos

/-- The subscriber's position after a hub trace, mirroring the branch
structure of `subscriberView`: each consumed message advances the
position by exactly one, a lag episode jumps it forward to the oldest
buffered message, and a recv while caught up leaves it unchanged.
Messages at indices at or beyond this position are still pending, not
lost. -/
def subscriberPos (capacity : Nat) :
    List HubEvent → List Message → Nat → Nat
  | [], _, pos => pos
  | HubEvent.publish m :: rest, log, pos =>
      subscriberPos capacity rest (log ++ [m]) pos
  | HubEvent.recv :: rest, log, pos =>
      if pos + capacity < log.length then
        subscriberPos capacity rest log (log.length - capacity)
      else if pos < log.length then
        subscriberPos capacity rest log (pos + 1)
      else
        subscriberPos capacity rest log pos

/-- The publish-log indices a subscriber skips along a hub trace,
mirroring the branch structure of `subscriberView`: only the lag branch
skips anything, namely exactly the overwritten indices from the
subscriber's position up to the oldest still-buffered message; the
consume and caught-up branches skip nothing. -/
def subscriberSkipped (capacity : Nat) :
    List HubEvent → List Message → Nat → List Nat
  | [], _, _ => []
  | HubEvent.publish m :: rest, log, pos =>
      subscriberSkipped capacity rest (log ++ [m]) pos
  | HubEvent.recv :: rest, log, pos =>
      if pos + capacity < log.length then
        List.range' pos (log.length - capacity - pos) ++
          subscriberSkipped capacity rest log (log.length - capacity)
      else if pos < log.length then
        subscriberSkipped capacity rest log (pos + 1)
      else
        subscriberSkipped capacity rest log pos

/-! ## Server: `handle_client` (`server.rs`)

The inbound loop reads lines from the client and publishes each one
(verbatim, `tx.send(line.clone())?`) to the broadcast channel; the `?`
propagates a send error, ending the session as an error.  The outbound
task is `while let Ok(msg) = rx.recv().await` around a `write_all`
whose error breaks the loop — so the loop exits on any `recv` error,
`Lagged` included. -/

/-- The server inbound loop of `handle_client`: processes the
connection's read results, publishing each line to the broadcast
channel with `receivers` live receivers.  Returns the final publish log
and `true` when the session ended with an error (an I/O read error or a
propagated send error), `false` on clean end-of-stream. -/
def handleClientInbound (receivers : Nat) :
    List ReadResult → List Message → List Message × Bool
  | [], log => (log, false)
  | ReadResult.eof :: _, log => (log, false)
  | ReadResult.err :: _, log => (log, true)
  | ReadResult.ok line :: rest, log =>
      match hubSend receivers log line with
      | Except.error _ => (log, true)
      | Except.ok log' => handleClientInbound receivers rest log'

/-- The server outbound task of `handle_client`: given the outcome of
each `write_all` and the sequence of `recv` results, returns the
messages written to this connection before the task ends.  The
`while let Ok(msg)` pattern ends the loop on any `recv` error
(`lagged` or `closed`), and a failed write breaks out as well. -/
def handleClientOutbound (writeOk : Message → Bool) :
    List BRecv → List Message
  | [] => []
  | BRecv.msg m :: rest =>
      if writeOk m then m :: handleClientOutbound writeOk rest else []
  | BRecv.lagged _ :: _ => []
  | BRecv.closed :: _ => []

/-- The broadcast format claimed by the spec (section 6): messages
delivered to clients are tagged with the origin peer address as
`[addr]: content` plus a newline.  Stated from the spec's words, for
comparison with what `handle_client` actually publishes. -/
def specBroadcastFormat (addr content : String) : String :=
  "[" ++ addr ++ "]: " ++ content ++ "\n"

/-! ## Helper lemmas -/

/-- With at least one live receiver, the inbound loop of
`handle_client` publishes every read line verbatim and ends cleanly at
end-of-stream. -/
theorem handleClientInbound_eq (receivers : Nat) (h : receivers ≠ 0) :
    ∀ lines log : List Message,
      handleClientInbound receivers
          (lines.map ReadResult.ok ++ [ReadResult.eof]) log =
        (log ++ lines, false)
  | [], log => by simp [handleClientInbound]
  | l :: rest, log => by
      have ih := handleClientInbound_eq receivers h rest (log ++ [l])
      simp only [List.map_cons, List.cons_append, handleClientInbound, hubSend,
        if_neg h]
      simpa using ih

/-- The publish log only grows along a trace: entries already present
keep their index and value. -/
theorem finalLog_getElem (events : List HubEvent) :
    ∀ (log : List Message) (i : Nat), i < log.length →
      (finalLog events log)[i]? = log[i]?
  | log, i, hi => by
    match events with
    | [] => rfl
    | HubEvent.publish m :: rest =>
        rw [finalLog, finalLog_getElem rest (log ++ [m]) i (by simp; omega),
          List.getElem?_append_left hi]
    | HubEvent.recv :: rest =>
        rw [finalLog, finalLog_getElem rest log i hi]

/-- A subscriber's position never moves backwards: every entry it
receives has an index at least its current position. -/
theorem subscriberView_le (capacity : Nat) :
    ∀ (events : List HubEvent) (log : List Message) (pos : Nat)
      (p : Nat × Message), p ∈ subscriberView capacity events log pos → pos ≤ p.1
  | [], _, _, _, hp => by simp [subscriberView] at hp
  | HubEvent.publish m :: rest, log, pos, p, hp => by
      rw [subscriberView] at hp
      exact subscriberView_le capacity rest (log ++ [m]) pos p hp
  | HubEvent.recv :: rest, log, pos, p, hp => by
      rw [subscriberView] at hp
      by_cases h1 : pos + capacity < log.length
      · rw [if_pos h1] at hp
        have := subscriberView_le capacity rest log (log.length - capacity) p hp
        omega
      · rw [if_neg h1] at hp
        by_cases h2 : pos < log.length
        · rw [dif_pos h2] at hp
          rcases List.mem_cons.mp hp with h | h
          · subst h; exact Nat.le_refl _
          · have := subscriberView_le capacity rest log (pos + 1) p h
            omega
        · rw [dif_neg h2] at hp
          exact subscriberView_le capacity rest log pos p hp

/-- Every entry a subscriber receives is the publish-log entry at its
index (looked up in the final log, which extends the log at receive
time). -/
theorem subscriberView_getElem (capacity : Nat) :
    ∀ (events : List HubEvent) (log : List Message) (pos : Nat)
      (p : Nat × Message), p ∈ subscriberView capacity events log pos →
        (finalLog events log)[p.1]? = some p.2
  | [], _, _, _, hp => by simp [subscriberView] at hp
  | HubEvent.publish m :: rest, log, pos, p, hp => by
      rw [subscriberView] at hp
      rw [finalLog]
      exact subscriberView_getElem capacity rest (log ++ [m]) pos p hp
  | HubEvent.recv :: rest, log, pos, p, hp => by
      rw [subscriberView] at hp
      rw [finalLog]
      by_cases h1 : pos + capacity < log.length
      · rw [if_pos h1] at hp
        exact subscriberView_getElem capacity rest log (log.length - capacity) p hp
      · rw [if_neg h1] at hp
        by_cases h2 : pos < log.length
        · rw [dif_pos h2] at hp
          rcases List.mem_cons.mp hp with h | h
          · subst h
            rw [finalLog_getElem rest log pos h2]
            exact List.getElem?_eq_getElem h2
          · exact subscriberView_getElem capacity rest log (pos + 1) p h
        · rw [dif_neg h2] at hp
          exact subscriberView_getElem capacity rest log pos p hp

/-- The indices of the entries a subscriber receives are strictly
increasing: no reordering and no duplicate delivery. -/
theorem subscriberView_chain (capacity : Nat) :
    ∀ (events : List HubEvent) (log : List Message) (pos : Nat),
      List.Chain' (fun a b : Nat × Message => a.1 < b.1)
        (subscriberView capacity events log pos)
  | [], _, _ => by simp [subscriberView]
  | HubEvent.publish m :: rest, log, pos => by
      rw [subscriberView]
      exact subscriberView_chain capacity rest (log ++ [m]) pos
  | HubEvent.recv :: rest, log, pos => by
      rw [subscriberView]
      by_cases h1 : pos + capacity < log.length
      · rw [if_pos h1]
        exact subscriberView_chain capacity rest log (log.length - capacity)
      · rw [if_neg h1]
        by_cases h2 : pos < log.length
        · rw [dif_pos h2]
          refine List.chain'_cons'.mpr ⟨?_, subscriberView_chain capacity rest log (pos + 1)⟩
          intro y hy
          have := subscriberView_le capacity rest log (pos + 1) y
            (List.mem_of_mem_head? hy)
          omega
        · rw [dif_neg h2]
          exact subscriberView_chain capacity rest log pos

/-- A subscriber's position never decreases along a trace. -/
theorem subscriberPos_le (capacity : Nat) :
    ∀ (events : List HubEvent) (log : List Message) (pos : Nat),
      pos ≤ subscriberPos capacity events log pos
  | [], _, _ => Nat.le_refl _
  | HubEvent.publish m :: rest, log, pos => by
      rw [subscriberPos]
      exact subscriberPos_le capacity rest (log ++ [m]) pos
  | HubEvent.recv :: rest, log, pos => by
      rw [subscriberPos]
      by_cases h1 : pos + capacity < log.length
      · rw [if_pos h1]
        have := subscriberPos_le capacity rest log (log.length - capacity)
        omega
      · rw [if_neg h1]
        by_cases h2 : pos < log.length
        · rw [if_pos h2]
          have := subscriberPos_le capacity rest log (pos + 1)
          omega
        · rw [if_neg h2]
          exact subscriberPos_le capacity rest log pos

/-- Every received entry lies strictly below the subscriber's final
position. -/
theorem subscriberView_lt_pos (capacity : Nat) :
    ∀ (events : List HubEvent) (log : List Message) (pos : Nat)
      (p : Nat × Message), p ∈ subscriberView capacity events log pos →
        p.1 < subscriberPos capacity events log pos
  | [], _, _, _, hp => by simp [subscriberView] at hp
  | HubEvent.publish m :: rest, log, pos, p, hp => by
      rw [subscriberView] at hp
      rw [subscriberPos]
      exact subscriberView_lt_pos capacity rest (log ++ [m]) pos p hp
  | HubEvent.recv :: rest, log, pos, p, hp => by
      rw [subscriberView] at hp
      rw [subscriberPos]
      by_cases h1 : pos + capacity < log.length
      · rw [if_pos h1] at hp ⊢
        exact subscriberView_lt_pos capacity rest log (log.length - capacity) p hp
      · rw [if_neg h1] at hp ⊢
        by_cases h2 : pos < log.length
        · rw [dif_pos h2] at hp
          rw [if_pos h2]
          rcases List.mem_cons.mp hp with h | h
          · subst h
            exact subscriberPos_le capacity rest log (pos + 1)
          · exact subscriberView_lt_pos capacity rest log (pos + 1) p h
        · rw [dif_neg h2] at hp
          rw [if_neg h2]
          exact subscriberView_lt_pos capacity rest log pos p hp

/-- Every skipped index lies between the subscriber's position at the
time and its final position. -/
theorem subscriberSkipped_bounds (capacity : Nat) :
    ∀ (events : List HubEvent) (log : List Message) (pos i : Nat),
      i ∈ subscriberSkipped capacity events log pos →
        pos ≤ i ∧ i < subscriberPos capacity events log pos
  | [], _, _, _, hi => by simp [subscriberSkipped] at hi
  | HubEvent.publish m :: rest, log, pos, i, hi => by
      rw [subscriberSkipped] at hi
      rw [subscriberPos]
      exact subscriberSkipped_bounds capacity rest (log ++ [m]) pos i hi
  | HubEvent.recv :: rest, log, pos, i, hi => by
      rw [subscriberSkipped] at hi
      rw [subscriberPos]
      by_cases h1 : pos + capacity < log.length
      · rw [if_pos h1] at hi ⊢
        rcases List.mem_append.mp hi with h | h
        · rw [List.mem_range'_1] at h
          have := subscriberPos_le capacity rest log (log.length - capacity)
          omega
        · have := subscriberSkipped_bounds capacity rest log (log.length - capacity) i h
          omega
      · rw [if_neg h1] at hi ⊢
        by_cases h2 : pos < log.length
        · rw [if_pos h2] at hi ⊢
          have := subscriberSkipped_bounds capacity rest log (pos + 1) i hi
          omega
        · rw [if_neg h2] at hi ⊢
          exact subscriberSkipped_bounds capacity rest log pos i hi

/-- Coverage: every log index from the subscriber's position up to its
final position is either received or skipped by a lag episode. -/
theorem subscriber_coverage (capacity : Nat) :
    ∀ (events : List HubEvent) (log : List Message) (pos i : Nat),
      pos ≤ i → i < subscriberPos capacity events log pos →
        (∃ p ∈ subscriberView capacity events log pos, p.1 = i) ∨
          i ∈ subscriberSkipped capacity events log pos
  | [], _, pos, i, hle, hlt => by
      rw [subscriberPos] at hlt
      omega
  | HubEvent.publish m :: rest, log, pos, i, hle, hlt => by
      rw [subscriberPos] at hlt
      rw [subscriberView, subscriberSkipped]
      exact subscriber_coverage capacity rest (log ++ [m]) pos i hle hlt
  | HubEvent.recv :: rest, log, pos, i, hle, hlt => by
      rw [subscriberPos] at hlt
      rw [subscriberView, subscriberSkipped]
      by_cases h1 : pos + capacity < log.length
      · simp only [if_pos h1] at hlt ⊢
        by_cases hi : i < log.length - capacity
        · right
          exact List.mem_append.mpr
            (Or.inl (List.mem_range'_1.mpr ⟨hle, by omega⟩))
        · rcases subscriber_coverage capacity rest log (log.length - capacity) i
            (by omega) hlt with h | h
          · exact Or.inl h
          · exact Or.inr (List.mem_append.mpr (Or.inr h))
      · simp only [if_neg h1] at hlt ⊢
        by_cases h2 : pos < log.length
        · simp only [if_pos h2, dif_pos h2] at hlt ⊢
          by_cases hip : i = pos
          · refine Or.inl ⟨(pos, log[pos]), List.mem_cons_self _ _, ?_⟩
            rw [hip]
          · rcases subscriber_coverage capacity rest log (pos + 1) i
              (by omega) hlt with h | h
            · rcases h with ⟨p, hp, hpi⟩
              exact Or.inl ⟨p, List.mem_cons_of_mem _ hp, hpi⟩
            · exact Or.inr h
        · simp only [if_neg h2, dif_neg h2] at hlt ⊢
          exact subscriber_coverage capacity rest log pos i hle hlt

/-- Disjointness: a lag-skipped index is never also received. -/
theorem subscriber_skipped_not_received (capacity : Nat) :
    ∀ (events : List HubEvent) (log : List Message) (pos i : Nat),
      i ∈ subscriberSkipped capacity events log pos →
        ∀ p ∈ subscriberView capacity events log pos, p.1 ≠ i
  | [], _, _, _, hi => by simp [subscriberSkipped] at hi
  | HubEvent.publish m :: rest, log, pos, i, hi => by
      rw [subscriberSkipped] at hi
      rw [subscriberView]
      exact subscriber_skipped_not_received capacity rest (log ++ [m]) pos i hi
  | HubEvent.recv :: rest, log, pos, i, hi => by
      rw [subscriberSkipped] at hi
      rw [subscriberView]
      by_cases h1 : pos + capacity < log.length
      · simp only [if_pos h1] at hi ⊢
        intro p hp
        rcases List.mem_append.mp hi with h | h
        · rw [List.mem_range'_1] at h
          have := subscriberView_le capacity rest log (log.length - capacity) p hp
          omega
        · exact subscriber_skipped_not_received capacity rest log
            (log.length - capacity) i h p hp
      · simp only [if_neg h1] at hi ⊢
        by_cases h2 : pos < log.length
        · simp only [if_pos h2] at hi
          simp only [dif_pos h2]
          intro p hp
          rcases List.mem_cons.mp hp with h | h
          · have hb := subscriberSkipped_bounds capacity rest log (pos + 1) i hi
            subst h
            show pos ≠ i
            omega
          · exact subscriber_skipped_not_received capacity rest log (pos + 1) i hi p h
        · simp only [if_neg h2, dif_neg h2] at hi ⊢
          exact subscriber_skipped_not_received capacity rest log pos i hi

/-- The bounded-queue invariant: from a queue within capacity, any
schedule keeps the queue within capacity, and the dequeued sequence
followed by the residual queue equals the initial contents followed by
the accepted messages — the FIFO law. -/
theorem runQueue_spec :
    ∀ (ops : List QueueOp) (q : List Message), q.length ≤ queueCapacity →
      (runQueue ops q).1.length ≤ queueCapacity ∧
      (runQueue ops q).2.1 ++ (runQueue ops q).1 = q ++ (runQueue ops q).2.2
  | [], q, hq => by simpa [runQueue] using hq
  | QueueOp.enqueue m :: rest, q, hq => by
      rw [runQueue]
      by_cases hl : q.length < queueCapacity
      · have ih := runQueue_spec rest (q ++ [m]) (by simp; omega)
        simp only [if_pos hl]
        refine ⟨ih.1, ?_⟩
        rw [ih.2]
        simp
      · simp [if_neg hl, hq]
  | QueueOp.dequeue :: rest, q, hq => by
      match q with
      | [] => simp [runQueue, queueCapacity]
      | m :: q' =>
          rw [runQueue]
          have ih := runQueue_spec rest q' (by simp at hq ⊢; omega)
          exact ⟨ih.1, by simp [ih.2]⟩

/-! ## Claims -/

/-- C1 counterexample: the stdin line consisting of just a newline is
not forwarded — the trim filter in the stdin-reader task of `client.rs`
drops it, so it is never enqueued to the outbound queue. -/
theorem c1_empty_line_not_forwarded :
    "\n" ∉ clientStdinEnqueued [ReadResult.ok "\n", ReadResult.eof] := by
  decide

/-- C1 (amended): a stdin line is forwarded iff its content is not
entirely whitespace: the stdin-reader enqueues exactly the lines that
do not trim to empty, in order and unchanged, and the sender writes
each dequeued message's bytes to the connection exactly. -/
theorem c1_amended_nonblank_forwarded (lines : List String) :
    clientStdinEnqueued (lines.map ReadResult.ok ++ [ReadResult.eof]) =
      lines.filter (fun l => !trimIsEmpty l) ∧
    ∀ m : Message, emittedBytes (clientSenderActions m) = m := by
  constructor
  · induction lines with
    | nil => rfl
    | cons l rest ih =>
        simp only [List.map_cons, List.cons_append, clientStdinEnqueued,
          List.filter_cons]
        by_cases hl : trimIsEmpty l
        · simp [hl, ih]
        · simp [hl, ih]
  · intro m
    simp [clientSenderActions, emittedBytes]

/-- C2 counterexample: for the line "hello" plus newline received from
peer 127.0.0.1:8080, the server publishes the raw line, not the
address-tagged format the claim states. -/
theorem c2_no_address_tag :
    (handleClientInbound 1 [ReadResult.ok "hello\n"] []).1 ≠
      [specBroadcastFormat "127.0.0.1:8080" "hello"] := by
  decide

/-- C2 (amended): the server publishes every line it receives verbatim,
with its original trailing newline; no peer-address tag or other
formatting is applied on the path to the Hub or to the clients. -/
theorem c2_amended_publish_verbatim (receivers : Nat) (lines log : List Message)
    (h : receivers ≠ 0) :
    (handleClientInbound receivers
        (lines.map ReadResult.ok ++ [ReadResult.eof]) log).1 = log ++ lines := by
  rw [handleClientInbound_eq receivers h lines log]

/-- Witness for the amended C2 at a concrete input. -/
theorem c2_amended_witness :
    (1 : Nat) ≠ 0 ∧
    (handleClientInbound 1
        ([("hello\n" : Message)].map ReadResult.ok ++ [ReadResult.eof]) []).1 =
      [] ++ ["hello\n"] :=
  ⟨by decide, c2_amended_publish_verbatim 1 ["hello\n"] [] (by decide)⟩

/-- C3 counterexample: after a Lagged signal the outbound loop does not
resume — the already-available next message is never written, the
while-let loop having exited on the Lagged error. -/
theorem c3_lagged_terminates_loop :
    handleClientOutbound (fun _ => true) [BRecv.lagged 3, BRecv.msg "x\n"] = [] ∧
    "x\n" ∉ handleClientOutbound (fun _ => true) [BRecv.lagged 3, BRecv.msg "x\n"] := by
  constructor
  · rfl
  · decide

/-- C3 (amended): the outbound loop ends on any recv error — Lagged as
well as Closed — or on a write failure; it continues only past a
successfully written message. -/
theorem c3_amended_loop_exit (writeOk : Message → Bool) (n : Nat)
    (rest : List BRecv) (m : Message) (h : writeOk m = true) :
    handleClientOutbound writeOk (BRecv.lagged n :: rest) = [] ∧
    handleClientOutbound writeOk (BRecv.closed :: rest) = [] ∧
    handleClientOutbound writeOk (BRecv.msg m :: rest) =
      m :: handleClientOutbound writeOk rest := by
  refine ⟨rfl, rfl, ?_⟩
  simp [handleClientOutbound, h]

/-- Witness for the amended C3 at a concrete input. -/
theorem c3_amended_witness :
    handleClientOutbound (fun _ => true) (BRecv.lagged 1 :: [BRecv.msg "a\n"]) = [] ∧
    handleClientOutbound (fun _ => true) (BRecv.closed :: [BRecv.msg "a\n"]) = [] ∧
    handleClientOutbound (fun _ => true) (BRecv.msg "b\n" :: [BRecv.msg "a\n"]) =
      "b\n" :: handleClientOutbound (fun _ => true) [BRecv.msg "a\n"] :=
  c3_amended_loop_exit (fun _ => true) 1 [BRecv.msg "a\n"] "b\n" rfl

/-- C5: a subscriber subscribing at the current end of the publish log
receives exactly the messages published after its subscription and
below its final position, in publish order, except those a lag episode
skips.  Soundness: received indices are at least the subscription
point, strictly increasing (no reordering, no duplicates), and each
received message equals the publish-log entry at its index.
Completeness: an index is post-subscription and below the final
position iff it is received or lag-skipped; no index is both, so gaps
arise only from lag — and when nothing was lag-skipped, every such
message is received. -/
theorem c5_subscriber_order (capacity : Nat) (events : List HubEvent)
    (log : List Message) :
    List.Chain' (fun a b : Nat × Message => a.1 < b.1)
      (subscriberView capacity events log log.length) ∧
    (∀ p ∈ subscriberView capacity events log log.length,
      log.length ≤ p.1 ∧ (finalLog events log)[p.1]? = some p.2) ∧
    (∀ i : Nat,
      log.length ≤ i ∧ i < subscriberPos capacity events log log.length ↔
        (∃ p ∈ subscriberView capacity events log log.length, p.1 = i) ∨
          i ∈ subscriberSkipped capacity events log log.length) ∧
    (∀ i ∈ subscriberSkipped capacity events log log.length,
      ∀ p ∈ subscriberView capacity events log log.length, p.1 ≠ i) ∧
    (subscriberSkipped capacity events log log.length = [] →
      ∀ i : Nat, log.length ≤ i →
        i < subscriberPos capacity events log log.length →
          ∃ p ∈ subscriberView capacity events log log.length, p.1 = i) := by
  refine ⟨subscriberView_chain capacity events log log.length, ?_, ?_, ?_, ?_⟩
  · intro p hp
    exact ⟨subscriberView_le capacity events log log.length p hp,
      subscriberView_getElem capacity events log log.length p hp⟩
  · intro i
    constructor
    · intro h
      exact subscriber_coverage capacity events log log.length i h.1 h.2
    · intro h
      rcases h with ⟨p, hp, hpi⟩ | h
      · subst hpi
        exact ⟨subscriberView_le capacity events log log.length p hp,
          subscriberView_lt_pos capacity events log log.length p hp⟩
      · exact subscriberSkipped_bounds capacity events log log.length i h
  · exact subscriber_skipped_not_received capacity events log log.length
  · intro hnil i h1 h2
    rcases subscriber_coverage capacity events log log.length i h1 h2 with h | h
    · exact h
    · rw [hnil] at h
      simp at h

/-- C6: when the server stream yields some lines and then a clean
end-of-stream, the client prints each line verbatim, in order, before
any later read is processed, then prints the disconnect notice and the
process exits with code 0. -/
theorem c6_client_reader_graceful_exit (lines : List String) :
    clientReadLoop (lines.map ReadResult.ok ++ [ReadResult.eof]) =
      (lines ++ [disconnectNotice], some 0) := by
  induction lines with
  | nil => rfl
  | cons l rest ih => simp [clientReadLoop, ih]

/-- C7 counterexample: the server outbound write for message content
"hi" neither appends a newline delimiter nor flushes, refuting the
claim that every write emits the text plus a newline and flushes before
returning. -/
theorem c7_server_write_no_flush :
    ¬ (emittedBytes (serverWriteActions "hi") = "hi" ++ "\n" ∧
       hasFlush (serverWriteActions "hi") = true) := by
  decide

/-- C7 (amended): every write emits exactly the message's bytes — a
trailing newline is present only when already contained in the message
— and only the client's sender flushes after writing; the server's
outbound task never flushes. -/
theorem c7_amended_write_behavior (msg : Message) :
    emittedBytes (clientSenderActions msg) = msg ∧
    hasFlush (clientSenderActions msg) = true ∧
    emittedBytes (serverWriteActions msg) = msg ∧
    hasFlush (serverWriteActions msg) = false := by
  refine ⟨?_, rfl, ?_, rfl⟩ <;>
    simp [clientSenderActions, serverWriteActions, emittedBytes]

/-- C8: the client outbound queue has capacity 10
(`mpsc::channel::<String>(10)`): along any schedule from a queue within
capacity it never holds more than 10 pending messages, the sender
dequeues messages in exactly the order they were accepted (FIFO law),
and an enqueue on a full queue suspends the producer with the message
still pending — it is not dropped. -/
theorem c8_outbound_queue_bounded (ops : List QueueOp) (q : List Message)
    (m : Message) (rest : List QueueOp) (h : q.length ≤ queueCapacity) :
    queueCapacity = 10 ∧
    (runQueue ops q).1.length ≤ queueCapacity ∧
    (runQueue ops q).2.1 ++ (runQueue ops q).1 = q ++ (runQueue ops q).2.2 ∧
    (q.length = queueCapacity →
      runQueue (QueueOp.enqueue m :: rest) q = (q, [], [])) := by
  refine ⟨rfl, (runQueue_spec ops q h).1, (runQueue_spec ops q h).2, ?_⟩
  intro hf
  rw [runQueue, if_neg (by omega)]

/-- Witness for C8 at a concrete schedule. -/
theorem c8_outbound_queue_witness :
    ([] : List Message).length ≤ queueCapacity ∧
    (queueCapacity = 10 ∧
     (runQueue [QueueOp.enqueue "a\n", QueueOp.enqueue "b\n", QueueOp.dequeue]
         []).1.length ≤ queueCapacity ∧
     (runQueue [QueueOp.enqueue "a\n", QueueOp.enqueue "b\n", QueueOp.dequeue]
           []).2.1 ++
         (runQueue [QueueOp.enqueue "a\n", QueueOp.enqueue "b\n", QueueOp.dequeue]
           []).1 =
       [] ++ (runQueue [QueueOp.enqueue "a\n", QueueOp.enqueue "b\n",
           QueueOp.dequeue] []).2.2 ∧
     (([] : List Message).length = queueCapacity →
       runQueue (QueueOp.enqueue "x\n" :: []) [] = ([], [], []))) :=
  ⟨by decide,
   c8_outbound_queue_bounded
     [QueueOp.enqueue "a\n", QueueOp.enqueue "b\n", QueueOp.dequeue] [] "x\n" []
     (by decide)⟩

/-- C9: self-echo — a session whose subscription is caught up publishes
a message and receives that very message back through its own
subscription handle (the hub capacity is positive; it is 10 in
`server.rs`). -/
theorem c9_self_echo (capacity : Nat) (log : List Message) (m : Message)
    (h : 0 < capacity) :
    subscriberView capacity [HubEvent.publish m, HubEvent.recv] log log.length =
      [(log.length, m)] := by
  simp only [subscriberView]
  rw [if_neg (by simp; omega)]
  rw [dif_pos (by simp)]
  simp

/-- Witness for C9 at a concrete input. -/
theorem c9_self_echo_witness :
    (0 : Nat) < 10 ∧
    subscriberView 10 [HubEvent.publish "hello\n", HubEvent.recv] ["a\n"] 1 =
      [(1, "hello\n")] :=
  ⟨by decide, c9_self_echo 10 ["a\n"] "hello\n" (by decide)⟩

/-- C10: a stdin line that is entirely whitespace (empty after
trimming) is silently discarded by the stdin-reader: it contributes
nothing to the enqueued sequence and is never sent to the server. -/
theorem c10_whitespace_lines_dropped (input : String) (rest : List ReadResult)
    (h : trimIsEmpty input = true) :
    clientStdinEnqueued (ReadResult.ok input :: rest) =
      clientStdinEnqueued rest := by
  simp [clientStdinEnqueued, h]

/-- Witness for C10 at a whitespace-only concrete line. -/
theorem c10_whitespace_lines_dropped_witness :
    trimIsEmpty "   \n" = true ∧
    clientStdinEnqueued [ReadResult.ok "   \n", ReadResult.eof] =
      clientStdinEnqueued [ReadResult.eof] :=
  ⟨by decide, c10_whitespace_lines_dropped "   \n" [ReadResult.eof] (by decide)⟩

end Chat
